import Mathlib

/-!
Verification of the agent-watchtower error-alert pipeline.

This file gives a shallow embedding, in Lean 4, of the core data structures and
operations of the watchtower service: the per-process log ring buffers and the
critical-pattern classifier (`monitor.ts` / `handleLog`), the error
deduplication and single-flight coordinator (`handleError`), the process-list
cache (`getCachedProcessList`), the retry / dead-letter queue
(`retry-queue.ts`), and the fixed-window rate limiter (`rate-limiter.ts`).
JavaScript numbers that only ever hold timestamps or counters are modelled as
`Nat` (with `Int` subtraction where the source subtracts possibly-smaller
values), JS `Map`s are modelled as association lists with JS `Map` semantics
(set replaces in place, delete filters), JS arrays mutated through shared
references are modelled with an explicit heap where aliasing is observable.
-/

namespace Watchtower

/-! ## Generic helpers shared by several components -/

/-- JS `String.prototype.includes` on character lists: `listStartsWith s p`
is true when `p` is a prefix of `s`. -/
def listStartsWith : List Char → List Char → Bool
  | _, [] => true
  | [], _ :: _ => false
  | c :: cs, p :: ps => c == p && listStartsWith cs ps

/-- True when `pat` occurs as a contiguous substring of `s`. -/
def listHasSub : List Char → List Char → Bool
  | [], pat => listStartsWith [] pat
  | s@(_ :: cs), pat => listStartsWith s pat || listHasSub cs pat

/-- JS `s.includes(pattern)`. -/
def jsIncludes (s pattern : String) : Bool :=
  listHasSub s.data pattern.data

/-- The push-then-shift idiom used by both the log ring buffer
(`monitor.ts` `handleLog`: `buffer.push(logData); if (buffer.length >
BUFFER_SIZE) buffer.shift()`) and the dead-letter store
(`retry-queue.ts` `moveToDeadLetter`): append at the tail and evict the
head once the capacity is exceeded. -/
def pushShift {α : Type} (cap : Nat) (l : List α) (x : α) : List α :=
  let b := l ++ [x]
  if cap < b.length then b.tail else b

/-- Lookup in a JS `Map` modelled as an association list. -/
def mapGet {β : Type} (m : List (String × β)) (k : String) : Option β :=
  (m.find? (fun p => p.1 == k)).map Prod.snd

/-- JS `Map.prototype.set`: replace the entry in place when the key is
present, otherwise append a new entry at the end. -/
def mapSet {β : Type} : List (String × β) → String → β → List (String × β)
  | [], k, v => [(k, v)]
  | p :: tl, k, v => if p.1 == k then (k, v) :: tl else p :: mapSet tl k v

/-- JS `Map.prototype.delete`. -/
def mapDelete {β : Type} (m : List (String × β)) (k : String) :
    List (String × β) :=
  m.filter (fun p => !(p.1 == k))

theorem mapGet_cons {β : Type} (p : String × β) (tl : List (String × β))
    (k : String) :
    mapGet (p :: tl) k = if p.1 == k then some p.2 else mapGet tl k := by
  by_cases h : p.1 == k <;> simp [mapGet, List.find?_cons, h]

theorem mapGet_set_self {β : Type} (m : List (String × β)) (k : String) (v : β) :
    mapGet (mapSet m k v) k = some v := by
  induction m with
  | nil => simp [mapGet, mapSet]
  | cons hd tl ih =>
    by_cases hhd : hd.1 == k
    · simp [mapSet, hhd, mapGet_cons]
    · simp [mapSet, hhd, mapGet_cons, ih]

theorem mapGet_set_ne {β : Type} (m : List (String × β)) (k k' : String) (v : β)
    (h : k' ≠ k) : mapGet (mapSet m k v) k' = mapGet m k' := by
  have hkk : (k == k') = false := beq_eq_false_iff_ne.mpr (Ne.symm h)
  induction m with
  | nil => simp [mapGet, mapSet, hkk]
  | cons hd tl ih =>
    by_cases hhd : hd.1 == k
    · have hhd' : hd.1 = k := by simpa using hhd
      have hne : (hd.1 == k') = false := by
        refine beq_eq_false_iff_ne.mpr ?_
        simpa [hhd'] using (Ne.symm h)
      simp [mapSet, hhd, mapGet_cons, hkk, hne, hhd']
    · simp [mapSet, hhd, mapGet_cons, ih]

theorem mapGet_delete_self {β : Type} (m : List (String × β)) (k : String) :
    mapGet (mapDelete m k) k = none := by
  induction m with
  | nil => simp [mapGet, mapDelete]
  | cons hd tl ih =>
    by_cases hhd : hd.1 == k
    · simpa [mapDelete, List.filter, hhd] using
        (by simpa [mapDelete] using ih)
    · simpa [mapDelete, List.filter, hhd, mapGet_cons] using
        (by simpa [mapDelete] using ih)

/-- Filtering an association list with a predicate that holds on the first
entry for key `k` preserves the lookup of `k`. -/
theorem mapGet_filter {β : Type} (m : List (String × β)) (k : String) (v : β)
    (p : String × β → Bool) (h : mapGet m k = some v) (hp : p (k, v) = true) :
    mapGet (m.filter p) k = some v := by
  induction m with
  | nil => simp [mapGet] at h
  | cons hd tl ih =>
    by_cases hhd : hd.1 == k
    · have hhd1 : hd.1 = k := by simpa using hhd
      have hv : hd.2 = v := by
        rw [mapGet_cons, if_pos hhd] at h
        simpa using h
      have hhd' : hd = (k, v) := by
        cases hd; simp_all
      subst hhd'
      simp [List.filter, hp, mapGet_cons]
    · have h' : mapGet tl k = some v := by
        rw [mapGet_cons, if_neg (by simp [hhd])] at h
        exact h
      by_cases hph : p hd
      · simpa [List.filter, hph, mapGet_cons, hhd] using ih h'
      · simpa [List.filter, hph] using ih h'

/-! ## Log Ring Buffer Store (`monitor.ts`, `handleLog`)

The monitor keeps `logBuffers : Map<number, string[]>`, one bounded buffer of
raw log lines per pm2 process id, with capacity `BUFFER_SIZE`. -/

/-- Default capacity: `parseInt(process.env.BUFFER_SIZE || '50', 10)`. -/
def BUFFER_SIZE : Nat := 50

/-- The buffer-maintenance part of `handleLog`: ensure the buffer exists,
push the line at the tail and shift the head when the capacity is exceeded. -/
def handleLogBuffer (cap : Nat) (bufs : Nat → Option (List String))
    (processId : Nat) (line : String) : Nat → Option (List String) :=
  let buffer := (bufs processId).getD []
  fun q => if q = processId then some (pushShift cap buffer line) else bufs q

/-- `logBuffers.get(processId) || []`: the buffer contents, or the empty
sequence when no buffer exists for that process id. -/
def snapshotBuffer (bufs : Nat → Option (List String)) (processId : Nat) :
    List String :=
  (bufs processId).getD []

/-- The store before any log line has arrived. -/
def emptyLogBuffers : Nat → Option (List String) := fun _ => none

/-- Folding `pushShift` over the arriving lines keeps exactly the
`cap` most recent lines, in arrival order. -/
theorem pushShift_foldl (cap : Nat) (lines : List String) :
    List.foldl (pushShift cap) [] lines = lines.drop (lines.length - cap) := by
  induction lines using List.reverseRecOn with
  | nil => simp
  | append_singleton l x ih =>
    rw [List.foldl_append]
    simp only [List.foldl_cons, List.foldl_nil, ih]
    by_cases h : l.length < cap
    · have h1 : l.length - cap = 0 := Nat.sub_eq_zero_of_le (Nat.le_of_lt h)
      have h2 : l.length + 1 - cap = 0 := Nat.sub_eq_zero_of_le h
      have hnot : ¬ cap < l.length + 1 := by omega
      simp [pushShift, h1, h2, hnot]
    · have hcap : cap ≤ l.length := Nat.le_of_not_lt h
      have hlen : (l.drop (l.length - cap)).length = cap := by
        simp [List.length_drop]; omega
      have hlt : cap < (l.drop (l.length - cap) ++ [x]).length := by
        simp [hlen]
      have hres : pushShift cap (l.drop (l.length - cap)) x
          = (l.drop (l.length - cap) ++ [x]).tail := by
        simp only [pushShift]
        rw [if_pos hlt]
      rw [hres]
      have hidx : (l ++ [x]).length - cap = (l.length - cap) + 1 := by
        simp [List.length_append]; omega
      rcases Nat.eq_zero_or_pos cap with hc0 | hcpos
      · subst hc0
        rw [Nat.sub_zero] at *
        rw [List.drop_length]
        simp only [List.nil_append, List.tail_cons]
        rw [hidx, Nat.sub_zero]
        rw [List.drop_eq_nil_of_le (by simp)]
      · have hle : l.length - cap + 1 ≤ l.length := by omega
        rw [← List.drop_one, List.drop_append_of_le_length (by omega),
          List.drop_drop, hidx]
        rw [List.drop_append_of_le_length hle]

/-- Appending through the store for one process id folds `pushShift` over
that id's lines. -/
theorem snapshot_foldl_append (cap : Nat) (pid : Nat) (lines : List String)
    (bufs : Nat → Option (List String)) :
    snapshotBuffer
        (lines.foldl (fun b line => handleLogBuffer cap b pid line) bufs) pid
      = List.foldl (pushShift cap) (snapshotBuffer bufs pid) lines := by
  induction lines generalizing bufs with
  | nil => rfl
  | cons hd tl ih =>
    simp only [List.foldl_cons]
    rw [ih]
    simp [handleLogBuffer, snapshotBuffer]

/-- Appends to one process id leave the other ids' snapshots unchanged. -/
theorem snapshot_foldl_other (cap : Nat) (pid q : Nat) (lines : List String)
    (bufs : Nat → Option (List String)) (hq : q ≠ pid) :
    snapshotBuffer
        (lines.foldl (fun b line => handleLogBuffer cap b pid line) bufs) q
      = snapshotBuffer bufs q := by
  induction lines generalizing bufs with
  | nil => rfl
  | cons hd tl ih =>
    simp only [List.foldl_cons]
    rw [ih]
    simp [handleLogBuffer, snapshotBuffer, hq]

/-- C4: after more than `cap` appends to one process id's buffer the snapshot
has length exactly `cap` and holds precisely the `cap` most recently appended
lines in arrival order; a process id that received no appends snapshots to the
empty sequence. -/
theorem log_ring_buffer_last_cap (cap : Nat) (pid : Nat) (lines : List String)
    (hover : cap < lines.length) :
    snapshotBuffer
        (lines.foldl (fun b line => handleLogBuffer cap b pid line)
          emptyLogBuffers) pid
      = lines.drop (lines.length - cap)
    ∧ (snapshotBuffer
        (lines.foldl (fun b line => handleLogBuffer cap b pid line)
          emptyLogBuffers) pid).length = cap
    ∧ ∀ q, q ≠ pid →
        snapshotBuffer
          (lines.foldl (fun b line => handleLogBuffer cap b pid line)
            emptyLogBuffers) q = [] := by
  have hsnap : snapshotBuffer emptyLogBuffers pid = [] := rfl
  have h1 := snapshot_foldl_append cap pid lines emptyLogBuffers
  rw [hsnap, pushShift_foldl] at h1
  refine ⟨h1, ?_, ?_⟩
  · rw [h1]; simp [List.length_drop]; omega
  · intro q hq
    simpa using snapshot_foldl_other cap pid q lines emptyLogBuffers hq

theorem log_ring_buffer_last_cap_witness :
    (2 < (["a", "b", "c"] : List String).length)
    ∧ snapshotBuffer
        ((["a", "b", "c"] : List String).foldl
          (fun b line => handleLogBuffer 2 b 7 line) emptyLogBuffers) 7
      = ["b", "c"] :=
  ⟨by decide,
   by
    have h := log_ring_buffer_last_cap 2 7 ["a", "b", "c"] (by decide)
    simpa using h.1⟩

/-! ## Critical-pattern classification (`monitor.ts`, `handleLog` and the
pm2 bus wiring in `setupEventListeners`) -/

/-- The two pm2 log streams. -/
inductive StreamKind where
  | stdout
  | stderr
deriving DecidableEq

/-- The fixed `CRITICAL_PATTERNS` list from `handleLog`. -/
def CRITICAL_PATTERNS : List String :=
  ["[404 Not Found]", "Error:", "Exception:", "FATAL", "[ERROR]"]

/-- `CRITICAL_PATTERNS.some(pattern => logData.includes(pattern))`. -/
def hasCriticalPattern (logData : String) : Bool :=
  CRITICAL_PATTERNS.any (fun pattern => jsIncludes logData pattern)

/-- Whether `handleLog` itself invokes `handleError` for a line: the
pattern check is guarded by `if (type === 'stdout')`. -/
def handleLogTriggersError (type : StreamKind) (logData : String) : Bool :=
  match type with
  | .stdout => hasCriticalPattern logData
  | .stderr => false

/-- Whether an incoming pm2 log event reaches `handleError`:
`bus.on('log:out')` only calls `handleLog`, while `bus.on('log:err')` calls
`handleLog` and then `handleError` unconditionally. -/
def busEventTriggersError (type : StreamKind) (logData : String) : Bool :=
  match type with
  | .stdout => handleLogTriggersError .stdout logData
  | .stderr => handleLogTriggersError .stderr logData || true

/-- C5 counterexample: the stderr line "connection established" contains none
of the critical patterns, yet the code hands it to the Error Dedup path
(`bus.on('log:err')` calls `handleError` unconditionally), so the claimed
"triggered if and only if a pattern matches, regardless of stream" is false. -/
theorem stderr_triggers_without_pattern :
    busEventTriggersError .stderr "connection established" = true
    ∧ hasCriticalPattern "connection established" = false := by
  constructor
  · rfl
  · decide

/-- C5 amended: the substring-pattern classification pass runs only over
stdout lines — a stdout line triggers the Error Dedup path if and only if it
contains a critical pattern, while every stderr line triggers the Error Dedup
path unconditionally, without consulting the patterns. -/
theorem classification_stdout_only (logData : String) :
    busEventTriggersError .stdout logData = hasCriticalPattern logData
    ∧ busEventTriggersError .stderr logData = true := by
  constructor <;> rfl

/-! ## Retry / Dead-Letter Queue (`retry-queue.ts`) -/

/-- `ErrorContext` from `types.ts`, with `Date` timestamps as `Nat`
(milliseconds since the epoch) and the `logContext` array taken by value
(the queue never mutates it). -/
structure ErrorContext where
  processId : Nat
  processName : String
  errorMessage : String
  stackTrace : String
  logContext : List String
  repo : Option String
  branch : Option String
  timestamp : Nat
deriving DecidableEq

/-- `QueuedAlert` from `retry-queue.ts`. -/
structure QueuedAlert where
  errorContext : ErrorContext
  attemptCount : Nat
  nextRetryAt : Nat
  createdAt : Nat
  lastError : Option String
deriving DecidableEq

/-- The `config.retry` block; defaults `maxRetries=5`,
`initialBackoffMs=1000`, `maxBackoffMs=32000` (`config.ts`). -/
structure RetryConfig where
  maxRetries : Nat
  initialBackoffMs : Nat
  maxBackoffMs : Nat

/-- The default retry configuration from `config.ts`. -/
def retryDefaults : RetryConfig :=
  { maxRetries := 5, initialBackoffMs := 1000, maxBackoffMs := 32000 }

/-- `MAX_DEAD_LETTER_SIZE` from `retry-queue.ts`. -/
def MAX_DEAD_LETTER_SIZE : Nat := 100

/-- `RetryQueue.calculateBackoff`:
`Math.min(initialBackoffMs * 2 ** attemptCount, maxBackoffMs)`. -/
def calculateBackoff (cfg : RetryConfig) (attemptCount : Nat) : Nat :=
  min (cfg.initialBackoffMs * 2 ^ attemptCount) cfg.maxBackoffMs

/-- `RetryQueue.getQueueKey`: process name and the first 50 characters of the
error message. -/
def getQueueKey (errorContext : ErrorContext) : String :=
  let errorPreview := errorContext.errorMessage.take 50
  errorContext.processName ++ ":" ++ errorPreview

/-- The mutable state of a `RetryQueue` instance: the active queue `Map` and
the dead-letter array. -/
structure RQState where
  queue : List (String × QueuedAlert)
  deadLetterQueue : List QueuedAlert
deriving DecidableEq

/-- A freshly constructed `RetryQueue`. -/
def RQState.empty : RQState :=
  { queue := [], deadLetterQueue := [] }

/-- `RetryQueue.moveToDeadLetter`, with the capacity
(`MAX_DEAD_LETTER_SIZE` in the source) as an explicit parameter: push the
terminal entry and shift the oldest one once the capacity is exceeded. -/
def moveToDeadLetter (maxDeadLetterSize : Nat) (cfg : RetryConfig)
    (dlq : List QueuedAlert) (errorContext : ErrorContext)
    (error : Option String) (now : Nat) : List QueuedAlert :=
  pushShift maxDeadLetterSize dlq
    { errorContext := errorContext,
      attemptCount := cfg.maxRetries,
      nextRetryAt := 0,
      createdAt := now,
      lastError := error }

/-- `RetryQueue.queueAlert` (without the processor start, which only arms the
1-second interval timer). `error` is the message of the send failure that led
here. `existing?.createdAt || Date.now()` is modelled with JS truthiness:
a stored `0` counts as absent. -/
def queueAlert (maxDeadLetterSize : Nat) (cfg : RetryConfig) (st : RQState)
    (errorContext : ErrorContext) (error : Option String) (now : Nat) :
    RQState :=
  let queueKey := getQueueKey errorContext
  let existing := mapGet st.queue queueKey
  let attemptCount := match existing with
    | some e => e.attemptCount
    | none => 0
  if cfg.maxRetries ≤ attemptCount then
    let dlq :=
      moveToDeadLetter maxDeadLetterSize cfg st.deadLetterQueue errorContext
        error now
    { st with deadLetterQueue := dlq }
  else
    let backoffMs := calculateBackoff cfg attemptCount
    let createdAt := match existing with
      | some e => if e.createdAt = 0 then now else e.createdAt
      | none => now
    let queuedAlert : QueuedAlert :=
      { errorContext := errorContext,
        attemptCount := attemptCount,
        nextRetryAt := now + backoffMs,
        createdAt := createdAt,
        lastError := error }
    { st with queue := mapSet st.queue queueKey queuedAlert }

/-- The `catch` branch of `RetryQueue.retryAlert`: the sender threw with
message `errMessage` at time `now`. The attempt count is bumped; at the
ceiling the key is deleted and the alert moves to the dead-letter store,
otherwise the next retry is scheduled with exponential backoff. -/
def retryAlertFail (maxDeadLetterSize : Nat) (cfg : RetryConfig)
    (st : RQState) (queuedAlert : QueuedAlert) (errMessage : String)
    (now : Nat) : RQState :=
  let queueKey := getQueueKey queuedAlert.errorContext
  let bumped :=
    { queuedAlert with
        attemptCount := queuedAlert.attemptCount + 1,
        lastError := some errMessage }
  if cfg.maxRetries ≤ bumped.attemptCount then
    let dlq :=
      moveToDeadLetter maxDeadLetterSize cfg st.deadLetterQueue
        bumped.errorContext (some errMessage) now
    { queue := mapDelete st.queue queueKey, deadLetterQueue := dlq }
  else
    let rescheduled :=
      { bumped with
          nextRetryAt := now + calculateBackoff cfg bumped.attemptCount }
    { st with queue := mapSet st.queue queueKey rescheduled }

/-- The success branch of `RetryQueue.retryAlert`: remove the key. -/
def retryAlertSucceed (st : RQState) (queuedAlert : QueuedAlert) : RQState :=
  { st with queue := mapDelete st.queue (getQueueKey queuedAlert.errorContext) }

/-- One tick of `processQueue` restricted to the alert stored under `key`,
with a sender that always fails with `errMessage`: the alert is retried only
when present and ready (`nextRetryAt <= now`). -/
def stepFail (maxDeadLetterSize : Nat) (cfg : RetryConfig) (key : String)
    (errMessage : String) (st : RQState) (now : Nat) : RQState :=
  match mapGet st.queue key with
  | some alert => if alert.nextRetryAt ≤ now then
      retryAlertFail maxDeadLetterSize cfg st alert errMessage now
    else st
  | none => st

/-- The life of one alert whose sender always fails: `queueAlert` into an
empty queue at time `ts 0`, then the `k`-th retry attempt at time `ts k`. -/
def failingRun (maxDeadLetterSize : Nat) (cfg : RetryConfig)
    (errorContext : ErrorContext) (errMessage : String) (ts : Nat → Nat) :
    Nat → RQState
  | 0 => queueAlert maxDeadLetterSize cfg RQState.empty errorContext none (ts 0)
  | Nat.succ k =>
      stepFail maxDeadLetterSize cfg (getQueueKey errorContext) errMessage
        (failingRun maxDeadLetterSize cfg errorContext errMessage ts k) (ts (k + 1))

/-- The queued record held for a failing alert after `k` sender failures:
attempt count `k`, next retry scheduled `calculateBackoff k` after the moment
`ts k` at which it was (re)scheduled, creation time preserved from the first
`queueAlert`. -/
def failingAlert (cfg : RetryConfig) (errorContext : ErrorContext)
    (errMessage : String) (ts : Nat → Nat) (k : Nat) : QueuedAlert :=
  { errorContext := errorContext,
    attemptCount := k,
    nextRetryAt := ts k + calculateBackoff cfg k,
    createdAt := ts 0,
    lastError := if k = 0 then none else some errMessage }

theorem failingRun_queue_inv (mdl : Nat) (cfg : RetryConfig)
    (ctx : ErrorContext) (em : String) (ts : Nat → Nat)
    (hready : ∀ k, k < cfg.maxRetries →
      ts k + calculateBackoff cfg k ≤ ts (k + 1)) :
    ∀ k, k < cfg.maxRetries →
      failingRun mdl cfg ctx em ts k =
        { queue := [(getQueueKey ctx, failingAlert cfg ctx em ts k)],
          deadLetterQueue := [] } := by
  intro k
  induction k with
  | zero =>
    intro h0
    have hnot : ¬ cfg.maxRetries ≤ 0 := by omega
    simp [failingRun, queueAlert, RQState.empty, mapGet, mapSet, failingAlert,
      hnot]
  | succ k ih =>
    intro hk
    have hk' : k < cfg.maxRetries := Nat.lt_of_succ_lt hk
    have hstep : failingRun mdl cfg ctx em ts (k + 1)
        = stepFail mdl cfg (getQueueKey ctx) em
            (failingRun mdl cfg ctx em ts k) (ts (k + 1)) := rfl
    rw [hstep, ih hk']
    have hget : mapGet [(getQueueKey ctx, failingAlert cfg ctx em ts k)]
        (getQueueKey ctx) = some (failingAlert cfg ctx em ts k) := by
      simp [mapGet]
    have hrdy : (failingAlert cfg ctx em ts k).nextRetryAt ≤ ts (k + 1) :=
      hready k hk'
    have hnot : ¬ cfg.maxRetries ≤ k + 1 := by omega
    simp only [stepFail, hget, hrdy, if_pos]
    simp [retryAlertFail, failingAlert, hnot, mapSet]

theorem failingRun_final (mdl : Nat) (cfg : RetryConfig)
    (ctx : ErrorContext) (em : String) (ts : Nat → Nat)
    (hmdl : 1 ≤ mdl) (hmr : 1 ≤ cfg.maxRetries)
    (hready : ∀ k, k < cfg.maxRetries →
      ts k + calculateBackoff cfg k ≤ ts (k + 1)) :
    failingRun mdl cfg ctx em ts cfg.maxRetries =
      { queue := [],
        deadLetterQueue :=
          [{ errorContext := ctx,
             attemptCount := cfg.maxRetries,
             nextRetryAt := 0,
             createdAt := ts cfg.maxRetries,
             lastError := some em }] } := by
  obtain ⟨m, hm⟩ : ∃ m, cfg.maxRetries = m + 1 := ⟨cfg.maxRetries - 1, by omega⟩
  have hmlt : m < cfg.maxRetries := by omega
  have hstep : failingRun mdl cfg ctx em ts (m + 1)
      = stepFail mdl cfg (getQueueKey ctx) em
          (failingRun mdl cfg ctx em ts m) (ts (m + 1)) := rfl
  rw [hm, hstep, failingRun_queue_inv mdl cfg ctx em ts hready m hmlt]
  have hget : mapGet [(getQueueKey ctx, failingAlert cfg ctx em ts m)]
      (getQueueKey ctx) = some (failingAlert cfg ctx em ts m) := by
    simp [mapGet]
  have hrdy : (failingAlert cfg ctx em ts m).nextRetryAt ≤ ts (m + 1) :=
    hready m hmlt
  simp only [stepFail, hget, hrdy, if_pos]
  have hceil : cfg.maxRetries ≤ m + 1 := by omega
  simp only [retryAlertFail, failingAlert, hceil, if_pos]
  have hne : ¬ mdl < 1 := by omega
  simp [mapDelete, moveToDeadLetter, pushShift, hne, hm]

theorem failingRun_steady (mdl : Nat) (cfg : RetryConfig)
    (ctx : ErrorContext) (em : String) (ts : Nat → Nat)
    (hmdl : 1 ≤ mdl) (hmr : 1 ≤ cfg.maxRetries)
    (hready : ∀ k, k < cfg.maxRetries →
      ts k + calculateBackoff cfg k ≤ ts (k + 1)) :
    ∀ j, failingRun mdl cfg ctx em ts (cfg.maxRetries + j)
      = failingRun mdl cfg ctx em ts cfg.maxRetries := by
  intro j
  induction j with
  | zero => rfl
  | succ j ih =>
    have hstep : failingRun mdl cfg ctx em ts (cfg.maxRetries + (j + 1))
        = stepFail mdl cfg (getQueueKey ctx) em
            (failingRun mdl cfg ctx em ts (cfg.maxRetries + j))
            (ts (cfg.maxRetries + j + 1)) := rfl
    rw [hstep, ih, failingRun_final mdl cfg ctx em ts hmdl hmr hready]
    simp [stepFail, mapGet]

/-- C1: an alert whose sender fails on every attempt is retried exactly
`maxRetries` times — it sits in the active queue, eligible for the `k`-th
retry, exactly for `k < maxRetries`, and the processor becomes a no-op once
the key is gone — the delay scheduled before the `k`-th retry is
`min(initialBackoffMs * 2 ^ k, maxBackoffMs)`, and after the final failure
the alert is appended to the dead-letter store while its key is removed from
the active queue. `ts k` is the instant of the `k`-th sender invocation
(`ts 0` the initial `queueAlert`); the hypothesis `hready` says each retry
fires no earlier than its scheduled `nextRetryAt`, which is how
`processQueue` selects alerts. -/
theorem retry_failing_alert_lifecycle (mdl : Nat) (cfg : RetryConfig)
    (ctx : ErrorContext) (em : String) (ts : Nat → Nat)
    (hmdl : 1 ≤ mdl) (hmr : 1 ≤ cfg.maxRetries)
    (hready : ∀ k, k < cfg.maxRetries →
      ts k + calculateBackoff cfg k ≤ ts (k + 1)) :
    (∀ k, k < cfg.maxRetries →
        mapGet (failingRun mdl cfg ctx em ts k).queue (getQueueKey ctx)
          = some (failingAlert cfg ctx em ts k)
        ∧ (failingAlert cfg ctx em ts k).nextRetryAt
          = ts k + min (cfg.initialBackoffMs * 2 ^ k) cfg.maxBackoffMs)
    ∧ mapGet (failingRun mdl cfg ctx em ts cfg.maxRetries).queue
        (getQueueKey ctx) = none
    ∧ (failingRun mdl cfg ctx em ts cfg.maxRetries).deadLetterQueue
        = [{ errorContext := ctx,
             attemptCount := cfg.maxRetries,
             nextRetryAt := 0,
             createdAt := ts cfg.maxRetries,
             lastError := some em }]
    ∧ ∀ k, cfg.maxRetries ≤ k →
        failingRun mdl cfg ctx em ts k
          = failingRun mdl cfg ctx em ts cfg.maxRetries := by
  refine ⟨?_, ?_, ?_, ?_⟩
  · intro k hk
    rw [failingRun_queue_inv mdl cfg ctx em ts hready k hk]
    constructor
    · simp [mapGet]
    · rfl
  · rw [failingRun_final mdl cfg ctx em ts hmdl hmr hready]
    simp [mapGet]
  · rw [failingRun_final mdl cfg ctx em ts hmdl hmr hready]
  · intro k hk
    have hk' : k = cfg.maxRetries + (k - cfg.maxRetries) := by omega
    rw [hk']
    exact failingRun_steady mdl cfg ctx em ts hmdl hmr hready _

/-- A concrete error context used by the witnesses. -/
def ctxW : ErrorContext :=
  { processId := 3,
    processName := "worker-1",
    errorMessage := "Error: disk full",
    stackTrace := "Error: disk full",
    logContext := ["Error: disk full"],
    repo := none,
    branch := none,
    timestamp := 1 }

/-- Retry instants for the witness run: the `k`-th sender invocation at
`1000 * 2 ^ k - 1000`, exactly when the scheduled backoff has elapsed. -/
def tsW (k : Nat) : Nat := 1000 * 2 ^ k - 1000

theorem retry_failing_alert_lifecycle_witness :
    mapGet (failingRun 100 retryDefaults ctxW "timeout" tsW 5).queue
        (getQueueKey ctxW) = none
    ∧ (failingRun 100 retryDefaults ctxW "timeout" tsW 5).deadLetterQueue
        = [{ errorContext := ctxW,
             attemptCount := 5,
             nextRetryAt := 0,
             createdAt := tsW 5,
             lastError := some "timeout" }]
    ∧ (failingAlert retryDefaults ctxW "timeout" tsW 2).nextRetryAt
        = tsW 2 + 4000 := by
  have h := retry_failing_alert_lifecycle 100 retryDefaults ctxW "timeout" tsW
    (by decide) (by decide)
    (by
      intro k hk
      have hk5 : k < 5 := hk
      interval_cases k <;> decide)
  refine ⟨h.2.1, h.2.2.1, ?_⟩
  have h2 := (h.1 2 (by decide)).2
  simpa [retryDefaults] using h2

/-! ## Dead-letter store bound (C8) -/

theorem pushShift_length_le {α : Type} (cap : Nat) (l : List α) (x : α)
    (h : l.length ≤ cap) : (pushShift cap l x).length ≤ cap := by
  by_cases hlt : cap < (l ++ [x]).length
  · have heq : pushShift cap l x = (l ++ [x]).tail := by
      simp only [pushShift]
      rw [if_pos hlt]
    rw [heq, List.length_tail]
    simp only [List.length_append, List.length_singleton]
    omega
  · have heq : pushShift cap l x = l ++ [x] := by
      simp only [pushShift]
      rw [if_neg hlt]
    rw [heq]
    exact Nat.le_of_not_lt hlt

theorem moveToDeadLetter_foldl_le (cap : Nat) (cfg : RetryConfig)
    (inserts : List (ErrorContext × Option String × Nat))
    (dlq : List QueuedAlert) (h : dlq.length ≤ cap) :
    (inserts.foldl
        (fun q i => moveToDeadLetter cap cfg q i.1 i.2.1 i.2.2) dlq).length
      ≤ cap := by
  induction inserts generalizing dlq with
  | nil => simpa using h
  | cons hd tl ih =>
    simp only [List.foldl_cons]
    exact ih _ (pushShift_length_le cap dlq _ h)

/-- Concrete contexts for the capacity-2 dead-letter scenario. -/
def ctxA : ErrorContext :=
  { processId := 1, processName := "a", errorMessage := "Error: A",
    stackTrace := "", logContext := [], repo := none, branch := none,
    timestamp := 1 }

def ctxB : ErrorContext :=
  { processId := 2, processName := "b", errorMessage := "Error: B",
    stackTrace := "", logContext := [], repo := none, branch := none,
    timestamp := 2 }

def ctxC : ErrorContext :=
  { processId := 3, processName := "c", errorMessage := "Error: C",
    stackTrace := "", logContext := [], repo := none, branch := none,
    timestamp := 3 }

/-- C8: starting from any dead-letter store within its capacity, any sequence
of `moveToDeadLetter` insertions leaves the store within the capacity; an
insertion into a store exactly at capacity (capacity at least 1) removes
exactly the oldest entry and appends the new one; and with capacity 2,
inserting alerts for A, B, C in that order leaves exactly B's and C's entries.
The production capacity is `MAX_DEAD_LETTER_SIZE = 100`. -/
theorem dead_letter_store_bounded (cap : Nat) (cfg : RetryConfig)
    (inserts : List (ErrorContext × Option String × Nat))
    (dlq : List QueuedAlert) (hlen : dlq.length ≤ cap) (hcap : 1 ≤ cap) :
    (inserts.foldl
        (fun q i => moveToDeadLetter cap cfg q i.1 i.2.1 i.2.2) dlq).length
      ≤ cap
    ∧ (∀ (q : List QueuedAlert) (ctx : ErrorContext) (err : Option String)
          (now : Nat), q.length = cap →
        moveToDeadLetter cap cfg q ctx err now
          = q.tail ++ [{ errorContext := ctx,
                         attemptCount := cfg.maxRetries,
                         nextRetryAt := 0,
                         createdAt := now,
                         lastError := err }])
    ∧ ((([(ctxA, (none : Option String), 1), (ctxB, none, 2),
          (ctxC, none, 3)] : List (ErrorContext × Option String × Nat)).foldl
          (fun q i => moveToDeadLetter 2 cfg q i.1 i.2.1 i.2.2) []).map
        (fun e => e.errorContext) = [ctxB, ctxC]) := by
  refine ⟨moveToDeadLetter_foldl_le cap cfg inserts dlq hlen, ?_, ?_⟩
  · intro q ctx err now hq
    have hne : q ≠ [] := by
      intro h0
      rw [h0] at hq
      simp at hq
      omega
    have hlt : cap < (q ++ [({ errorContext := ctx,
                               attemptCount := cfg.maxRetries,
                               nextRetryAt := 0,
                               createdAt := now,
                               lastError := err } : QueuedAlert)]).length := by
      simp [hq]
    simp only [moveToDeadLetter, pushShift, hlt, if_pos]
    exact List.tail_append_singleton_of_ne_nil hne
  · rfl

theorem dead_letter_store_bounded_witness :
    (([(ctxA, (none : Option String), 1), (ctxB, none, 2),
        (ctxC, none, 3)] : List (ErrorContext × Option String × Nat)).foldl
        (fun q i => moveToDeadLetter 2 retryDefaults q i.1 i.2.1 i.2.2)
        []).map (fun e => e.errorContext) = [ctxB, ctxC] :=
  (dead_letter_store_bounded 2 retryDefaults [] [] (by decide)
    (by decide)).2.2

/-! ## Rate Limiter (`rate-limiter.ts`) -/

/-- `RateLimitEntry` from `rate-limiter.ts`. -/
structure RateLimitEntry where
  count : Nat
  resetAt : Nat
  windowStart : Nat
deriving DecidableEq

/-- `private readonly windowMs = 60 * 1000`. -/
def windowMs : Nat := 60 * 1000

/-- The mutable `entries` map of a `RateLimiter` instance. -/
structure RateLimiterState where
  entries : List (String × RateLimitEntry)
deriving DecidableEq

/-- The `{allowed, retryAfter?}` result of `checkLimit`. -/
structure RateLimitCheck where
  allowed : Bool
  retryAfter : Option Nat
deriving DecidableEq

/-- The tail of `RateLimiter.checkLimit` after the entry has been resolved
(and stored, when freshly initialized): reject with
`retryAfter = Math.ceil((entry.resetAt - now) / 1000)` once
`entry.count >= maxRequests`, otherwise increment the count (which writes
through the reference stored in the map) and allow. On every reachable
rejection `now < entry.resetAt`, so the JS ceiling equals the exact Nat
computation `(entry.resetAt - now + 999) / 1000`. -/
def checkLimitGo (entries : List (String × RateLimitEntry))
    (identifier : String) (maxRequests : Nat) (now : Nat)
    (entry : RateLimitEntry) : RateLimitCheck × RateLimiterState :=
  if maxRequests ≤ entry.count then
    ({ allowed := false,
       retryAfter := some ((entry.resetAt - now + 999) / 1000) },
     { entries := entries })
  else
    ({ allowed := true, retryAfter := none },
     { entries :=
        mapSet entries identifier { entry with count := entry.count + 1 } })

/-- `RateLimiter.checkLimit`: look the identifier up; initialize a fresh
window (`count=0, resetAt=now+windowMs`) when the entry is absent or its
window has elapsed (`entry.resetAt <= now`); then check the count. -/
def checkLimit (st : RateLimiterState) (identifier : String)
    (maxRequests : Nat) (now : Nat) : RateLimitCheck × RateLimiterState :=
  match mapGet st.entries identifier with
  | some entry =>
    if entry.resetAt ≤ now then
      let fresh : RateLimitEntry :=
        { count := 0, resetAt := now + windowMs, windowStart := now }
      checkLimitGo (mapSet st.entries identifier fresh) identifier
        maxRequests now fresh
    else
      checkLimitGo st.entries identifier maxRequests now entry
  | none =>
    let fresh : RateLimitEntry :=
      { count := 0, resetAt := now + windowMs, windowStart := now }
    checkLimitGo (mapSet st.entries identifier fresh) identifier
      maxRequests now fresh

/-- A sequence of `checkLimit` calls for one identifier, the `n`-th at time
`ts n`. -/
def rlRun (st0 : RateLimiterState) (identifier : String) (maxRequests : Nat)
    (ts : Nat → Nat) : Nat → RateLimitCheck × RateLimiterState
  | 0 => checkLimit st0 identifier maxRequests (ts 0)
  | Nat.succ n =>
      checkLimit (rlRun st0 identifier maxRequests ts n).2 identifier
        maxRequests (ts (n + 1))

theorem checkLimit_other_key (st : RateLimiterState) (identifier k : String)
    (maxRequests now : Nat) (hk : k ≠ identifier) :
    mapGet (checkLimit st identifier maxRequests now).2.entries k
      = mapGet st.entries k := by
  rcases hget : mapGet st.entries identifier with _ | entry
  · simp only [checkLimit, hget, checkLimitGo]
    split
    · simp [mapGet_set_ne _ _ _ _ hk]
    · simp [mapGet_set_ne _ _ _ _ hk]
  · by_cases hreset : entry.resetAt ≤ now
    · simp only [checkLimit, hget, if_pos hreset, checkLimitGo]
      split
      · simp [mapGet_set_ne _ _ _ _ hk]
      · simp [mapGet_set_ne _ _ _ _ hk]
    · simp only [checkLimit, hget, if_neg hreset, checkLimitGo]
      split
      · simp
      · simp [mapGet_set_ne _ _ _ _ hk]

theorem rlRun_other_key (st0 : RateLimiterState) (identifier k : String)
    (maxRequests : Nat) (ts : Nat → Nat) (hk : k ≠ identifier) (n : Nat) :
    mapGet (rlRun st0 identifier maxRequests ts n).2.entries k
      = mapGet st0.entries k := by
  induction n with
  | zero => exact checkLimit_other_key st0 identifier k maxRequests (ts 0) hk
  | succ n ih =>
    have hstep : rlRun st0 identifier maxRequests ts (n + 1)
        = checkLimit (rlRun st0 identifier maxRequests ts n).2 identifier
            maxRequests (ts (n + 1)) := rfl
    rw [hstep, checkLimit_other_key _ identifier k maxRequests _ hk, ih]

theorem rlRun_spec (st0 : RateLimiterState) (identifier : String)
    (maxRequests : Nat) (ts : Nat → Nat)
    (hid : mapGet st0.entries identifier = none)
    (hmax : 1 ≤ maxRequests)
    (hwin : ∀ i, 1 ≤ i → ts i < ts 0 + windowMs) :
    ∀ n,
      mapGet (rlRun st0 identifier maxRequests ts n).2.entries identifier
        = some { count := min (n + 1) maxRequests,
                 resetAt := ts 0 + windowMs,
                 windowStart := ts 0 }
      ∧ (rlRun st0 identifier maxRequests ts n).1
        = if n < maxRequests then { allowed := true, retryAfter := none }
          else { allowed := false,
                 retryAfter :=
                  some ((ts 0 + windowMs - ts n + 999) / 1000) } := by
  intro n
  induction n with
  | zero =>
    have h0 : 0 < maxRequests := hmax
    have hnot : ¬ maxRequests ≤ 0 := by omega
    constructor
    · simp [rlRun, checkLimit, hid, checkLimitGo, hnot, mapGet_set_self,
        Nat.min_eq_left hmax]
    · simp [rlRun, checkLimit, hid, checkLimitGo, hnot, h0]
  | succ n ih =>
    have hentry := ih.1
    have hnow : ts (n + 1) < ts 0 + windowMs := hwin (n + 1) (by omega)
    have hreset : ¬ (ts 0 + windowMs ≤ ts (n + 1)) := by omega
    have hstep : rlRun st0 identifier maxRequests ts (n + 1)
        = checkLimit (rlRun st0 identifier maxRequests ts n).2 identifier
            maxRequests (ts (n + 1)) := rfl
    by_cases hcnt : n + 1 < maxRequests
    · have hnotle : ¬ maxRequests ≤ min (n + 1) maxRequests := by omega
      constructor
      · rw [hstep]
        simp [checkLimit, hentry, hreset, checkLimitGo, hnotle,
          mapGet_set_self]
        all_goals omega
      · rw [hstep]
        simp [checkLimit, hentry, hreset, checkLimitGo, hnotle, hcnt]
    · have hle : maxRequests ≤ min (n + 1) maxRequests := by omega
      constructor
      · rw [hstep]
        simp [checkLimit, hentry, hreset, checkLimitGo, hle]
        all_goals omega
      · rw [hstep]
        simp [checkLimit, hentry, hreset, checkLimitGo, hle, hcnt]

/-- C9: starting from a state that has never seen `identifier`, with every
follow-up call inside the 60-second window opened by the first call, the
first `maxRequests` calls are allowed, every later call in the window is
rejected with `retryAfter = ceil((resetAt - now) / 1000) > 0`, a different
identifier's first call in the same period is allowed regardless, and a call
at or after `resetAt` lazily opens a fresh window whose count starts at 0
(stored as 1 after the call itself is counted and allowed). -/
theorem rate_limiter_fixed_window (st0 : RateLimiterState)
    (identifier other : String) (maxRequests : Nat) (ts : Nat → Nat)
    (hid : mapGet st0.entries identifier = none)
    (hother : mapGet st0.entries other = none)
    (hne : other ≠ identifier)
    (hmax : 1 ≤ maxRequests)
    (hwin : ∀ i, 1 ≤ i → ts i < ts 0 + windowMs) :
    (∀ n, n < maxRequests →
      (rlRun st0 identifier maxRequests ts n).1
        = { allowed := true, retryAfter := none })
    ∧ (∀ n, maxRequests ≤ n →
        (rlRun st0 identifier maxRequests ts n).1
          = { allowed := false,
              retryAfter := some ((ts 0 + windowMs - ts n + 999) / 1000) }
        ∧ 0 < (ts 0 + windowMs - ts n + 999) / 1000)
    ∧ (∀ n t',
        (checkLimit (rlRun st0 identifier maxRequests ts n).2 other
            maxRequests t').1
          = { allowed := true, retryAfter := none })
    ∧ (∀ n t', ts 0 + windowMs ≤ t' →
        (checkLimit (rlRun st0 identifier maxRequests ts n).2 identifier
            maxRequests t').1
          = { allowed := true, retryAfter := none }
        ∧ mapGet (checkLimit (rlRun st0 identifier maxRequests ts n).2
            identifier maxRequests t').2.entries identifier
          = some { count := 1, resetAt := t' + windowMs,
                   windowStart := t' }) := by
  refine ⟨?_, ?_, ?_, ?_⟩
  · intro n hn
    rw [(rlRun_spec st0 identifier maxRequests ts hid hmax hwin n).2]
    simp [hn]
  · intro n hn
    have hlt : ts n < ts 0 + windowMs := hwin n (by omega)
    constructor
    · rw [(rlRun_spec st0 identifier maxRequests ts hid hmax hwin n).2]
      simp [Nat.not_lt.mpr hn]
    · have : 1 ≤ ts 0 + windowMs - ts n := by omega
      omega
  · intro n t'
    have hoth := rlRun_other_key st0 identifier other maxRequests ts hne n
    rw [hother] at hoth
    have hnot : ¬ maxRequests ≤ 0 := by omega
    simp [checkLimit, hoth, checkLimitGo, hnot]
  · intro n t' ht'
    have hentry := (rlRun_spec st0 identifier maxRequests ts hid hmax hwin n).1
    have hnot : ¬ maxRequests ≤ 0 := by omega
    constructor
    · simp [checkLimit, hentry, ht', checkLimitGo, hnot]
    · simp [checkLimit, hentry, ht', checkLimitGo, hnot, mapGet_set_self]

/-- Call times for the rate-limiter witness: call `n` at `min n 100`
milliseconds, all inside the first 60-second window. -/
def tsRL (n : Nat) : Nat := min n 100

theorem rate_limiter_fixed_window_witness :
    ((rlRun { entries := [] } "10.0.0.1" 10 tsRL 10).1.allowed = false
      ∧ (rlRun { entries := [] } "10.0.0.1" 10 tsRL 9).1.allowed = true)
    ∧ (checkLimit (rlRun { entries := [] } "10.0.0.1" 10 tsRL 10).2
        "10.0.0.2" 10 50).1.allowed = true := by
  have h := rate_limiter_fixed_window { entries := [] } "10.0.0.1" "10.0.0.2"
    10 tsRL rfl rfl (by decide) (by decide)
    (fun i hi => by
      have hle := Nat.min_le_right i 100
      simp only [tsRL, windowMs]
      omega)
  refine ⟨⟨?_, ?_⟩, ?_⟩
  · rw [(h.2.1 10 (by decide)).1]
  · rw [h.1 9 (by decide)]
  · rw [h.2.2.1 10 50]

/-! ## Error Deduplication and Single-Flight Coordinator (`monitor.ts`,
`handleError` and `hashError`) -/

/-- The standard base64 alphabet used by `Buffer.toString('base64')`. -/
def base64Chars : List Char :=
  "ABCDEFGHIJKLMNOPQRSTUVWXYZabcdefghijklmnopqrstuvwxyz0123456789+/".data

/-- The base64 digit for a 6-bit value. -/
def b64Digit (n : Nat) : Char := base64Chars.getD n '='

/-- Base64 encoding of a byte sequence, with `=` padding, as produced by
`Buffer.prototype.toString('base64')`. -/
def base64Encode : List Nat → List Char
  | [] => []
  | [a] => [b64Digit (a / 4), b64Digit (a % 4 * 16), '=', '=']
  | [a, b] =>
      [b64Digit (a / 4), b64Digit (a % 4 * 16 + b / 16), b64Digit (b % 16 * 4),
       '=']
  | a :: b :: c :: rest =>
      b64Digit (a / 4) :: b64Digit (a % 4 * 16 + b / 16) ::
        b64Digit (b % 16 * 4 + c / 64) :: b64Digit (c % 64) ::
        base64Encode rest

/-- UTF-8 encoding of one character (the encoding `Buffer.from(string)`
uses). -/
def utf8CharBytes (c : Char) : List Nat :=
  let n := c.toNat
  if n < 128 then [n]
  else if n < 2048 then [192 + n / 64, 128 + n % 64]
  else if n < 65536 then [224 + n / 4096, 128 + n / 64 % 64, 128 + n % 64]
  else [240 + n / 262144, 128 + n / 4096 % 64, 128 + n / 64 % 64,
        128 + n % 64]

/-- UTF-8 bytes of a string. -/
def utf8Bytes (s : String) : List Nat :=
  s.data.foldr (fun c acc => utf8CharBytes c ++ acc) []

/-- `ProcessMonitor.hashError`: base64 of
`` `${processName}:${errorMessage.substring(0, 100)}` `` truncated to its
first 50 characters. -/
def hashError (errorMessage : String) (processName : String) : String :=
  let normalized := processName ++ ":" ++ errorMessage.take 100
  String.mk ((base64Encode (utf8Bytes normalized)).take 50)

/-- The default `DEBOUNCE_MS` (5 minutes, `config.ts`). -/
def DEBOUNCE_MS : Nat := 300000

/-- The shared dedup state of the monitor: the `errorHashes` recently-seen
map (fingerprint to last-seen `Date.now()`) and the `processingErrors`
single-flight set of `` `${processId}:${errorHash}` `` keys. -/
structure DedupState where
  errorHashes : List (String × Nat)
  processingErrors : List String
deriving DecidableEq

/-- The dedup state of a freshly started monitor. -/
def DedupState.empty : DedupState :=
  { errorHashes := [], processingErrors := [] }

/-- The outcome of the admission check inside `handleError`. -/
inductive AdmitResult where
  | debounced
  | raceDuplicate
  | admitted
deriving DecidableEq, BEq

/-- The admission block of `handleError` (run synchronously, with no
suspension point, after the process info has been resolved): consult the
recently-seen table (`lastSeen && (now - lastSeen) < DEBOUNCE_MS`, with JS
truthiness — a stored `0` counts as unseen — and JS signed subtraction),
then the currently-processing set; on admission record the processing key
and the last-seen timestamp. -/
def admitError (debounceMs : Nat) (st : DedupState) (processId : Nat)
    (processName : String) (errorMessage : String) (now : Nat) :
    AdmitResult × DedupState :=
  let errorHash := hashError errorMessage processName
  let debounced := match mapGet st.errorHashes errorHash with
    | none => false
    | some lastSeen =>
        lastSeen != 0 && decide ((now : Int) - lastSeen < (debounceMs : Int))
  if debounced then (.debounced, st)
  else
    let processingKey := toString processId ++ ":" ++ errorHash
    if st.processingErrors.contains processingKey then (.raceDuplicate, st)
    else
      (.admitted,
       { errorHashes := mapSet st.errorHashes errorHash now,
         processingErrors := processingKey :: st.processingErrors })

/-- The other operations that can touch the dedup state between two
admission attempts: the delayed `processingErrors.delete` scheduled after an
alert attempt, the periodic `errorHashes` cleanup sweep
(`now - timestamp > DEBOUNCE_MS`), and the admission block of an unrelated
alert. -/
inductive DedupAction where
  | removeProcessing (key : String)
  | cleanupSweep (now : Nat)
  | admitOther (processId : Nat) (processName errorMessage : String)
      (now : Nat)
deriving DecidableEq

/-- Effect of a `DedupAction` on the dedup state. -/
def dedupStep (debounceMs : Nat) (st : DedupState) :
    DedupAction → DedupState
  | .removeProcessing key =>
      { st with processingErrors :=
          st.processingErrors.filter (fun k => !(k == key)) }
  | .cleanupSweep now =>
      let kept := st.errorHashes.filter
        (fun p => !decide ((now : Int) - p.2 > (debounceMs : Int)))
      { st with errorHashes := kept }
  | .admitOther pid name msg now =>
      (admitError debounceMs st pid name msg now).2

/-- Side conditions under which an interleaved action cannot disturb the
fingerprint `fp` before time `t2`: a cleanup sweep runs no later than `t2`,
and a concurrent admission concerns a different fingerprint. -/
def actionSafe (debounceMs : Nat) (fp : String) (t2 : Nat) :
    DedupAction → Prop
  | .removeProcessing _ => True
  | .cleanupSweep now => now ≤ t2
  | .admitOther _ name msg _ => hashError msg name ≠ fp

theorem dedupStep_preserves_lastSeen (debounceMs : Nat) (fp : String)
    (t1 t2 : Nat) (st : DedupState) (a : DedupAction)
    (hsafe : actionSafe debounceMs fp t2 a)
    (hle : t1 ≤ t2) (hwin : t2 - t1 < debounceMs)
    (hget : mapGet st.errorHashes fp = some t1) :
    mapGet (dedupStep debounceMs st a).errorHashes fp = some t1 := by
  cases a with
  | removeProcessing key => exact hget
  | cleanupSweep now =>
    have hnow : now ≤ t2 := hsafe
    have hkeep :
        (fun p : String × Nat =>
          !decide ((now : Int) - p.2 > (debounceMs : Int))) (fp, t1)
        = true := by
      simp only [Bool.not_eq_true']
      rw [decide_eq_false_iff_not]
      omega
    exact mapGet_filter st.errorHashes fp t1
      (fun p => !decide ((now : Int) - p.2 > (debounceMs : Int))) hget hkeep
  | admitOther pid name msg now =>
    have hne : hashError msg name ≠ fp := hsafe
    show mapGet (admitError debounceMs st pid name msg now).2.errorHashes fp
      = some t1
    simp only [admitError]
    split
    · exact hget
    · split
      · exact hget
      · rw [mapGet_set_ne _ _ _ _ (Ne.symm hne)]
        exact hget

theorem dedupSteps_preserve_lastSeen (debounceMs : Nat) (fp : String)
    (t1 t2 : Nat) (st : DedupState) (acts : List DedupAction)
    (hsafe : ∀ a ∈ acts, actionSafe debounceMs fp t2 a)
    (hle : t1 ≤ t2) (hwin : t2 - t1 < debounceMs)
    (hget : mapGet st.errorHashes fp = some t1) :
    mapGet (acts.foldl (dedupStep debounceMs) st).errorHashes fp
      = some t1 := by
  induction acts generalizing st with
  | nil => exact hget
  | cons hd tl ih =>
    simp only [List.foldl_cons]
    exact ih _ (fun a ha => hsafe a (List.mem_cons_of_mem hd ha))
      (dedupStep_preserves_lastSeen debounceMs fp t1 t2 st hd
        (hsafe hd (List.mem_cons_self hd tl)) hle hwin hget)

/-- C2: among two admission attempts carrying the same fingerprint (same
process name, same first 100 characters of error text) within one debounce
window, exactly one is admitted. The attempt whose admission block runs
first is admitted; the other is suppressed no matter which other dedup
operations (single-flight removals, cleanup sweeps, admissions of other
fingerprints) interleave between the two blocks — which covers both
sequential execution and interleavings at the suspension points, because the
admission block itself contains no suspension point. -/
theorem dedup_exactly_one_admitted (debounceMs : Nat) (st0 : DedupState)
    (pid1 pid2 : Nat) (name msg1 msg2 : String) (t1 t2 : Nat)
    (acts : List DedupAction)
    (hfp : msg1.take 100 = msg2.take 100)
    (hfresh : mapGet st0.errorHashes (hashError msg1 name) = none)
    (hnoproc : (toString pid1 ++ ":" ++ hashError msg1 name)
      ∉ st0.processingErrors)
    (ht1 : 1 ≤ t1) (hle : t1 ≤ t2) (hwin : t2 - t1 < debounceMs)
    (hsafe : ∀ a ∈ acts, actionSafe debounceMs (hashError msg1 name) t2 a) :
    (admitError debounceMs st0 pid1 name msg1 t1).1 = .admitted
    ∧ (admitError debounceMs
        (acts.foldl (dedupStep debounceMs)
          (admitError debounceMs st0 pid1 name msg1 t1).2)
        pid2 name msg2 t2).1 = .debounced := by
  have hhash : hashError msg2 name = hashError msg1 name := by
    simp [hashError, hfp]
  have hfirst : admitError debounceMs st0 pid1 name msg1 t1
      = (.admitted,
         { errorHashes := mapSet st0.errorHashes (hashError msg1 name) t1,
           processingErrors :=
             (toString pid1 ++ ":" ++ hashError msg1 name)
               :: st0.processingErrors }) := by
    simp [admitError, hfresh, hnoproc]
  refine ⟨by rw [hfirst], ?_⟩
  have hst1 : mapGet (admitError debounceMs st0 pid1 name msg1 t1).2.errorHashes
      (hashError msg1 name) = some t1 := by
    rw [hfirst]
    exact mapGet_set_self _ _ _
  have hpres := dedupSteps_preserve_lastSeen debounceMs (hashError msg1 name)
    t1 t2 _ acts hsafe hle hwin hst1
  have ht1' : t1 ≠ 0 := by omega
  have hdeb : (t2 : Int) - t1 < (debounceMs : Int) := by omega
  set S := acts.foldl (dedupStep debounceMs)
    (admitError debounceMs st0 pid1 name msg1 t1).2 with hSdef
  simp [admitError, hhash, hpres, ht1', hdeb]

theorem dedup_exactly_one_admitted_witness :
    (admitError 300000 DedupState.empty 1 "worker-1" "Error: disk full" 10).1
      = .admitted
    ∧ (admitError 300000
        (admitError 300000 DedupState.empty 1 "worker-1"
          "Error: disk full" 10).2
        1 "worker-1" "Error: disk full" 20).1 = .debounced := by
  have h := dedup_exactly_one_admitted 300000 DedupState.empty 1 1 "worker-1"
    "Error: disk full" "Error: disk full" 10 20 [] rfl rfl
    (by intro hmem; cases hmem)
    (by decide) (by decide) (by decide) (by intro a ha; cases ha)
  simpa using h

/-! ## Process Directory Cache (`monitor.ts`, `getCachedProcessList`)

`processListCache` holds a single slot (`cacheKey = 0`) with the last fetched
list and its timestamp; `PROCESS_LIST_CACHE_MS` (default 5000) is the TTL.
The upstream `pm2.list` result is abstracted as `upstream i`, the result of
the `i`-th fetch. A `get()` has two phases separated by the `await` of the
upstream fetch: the synchronous check (hit, or miss starting a fetch) and the
store that runs when the fetch resolves, stamping the `now` captured at check
time. -/

/-- The cache slot plus an instrumentation counter of upstream fetches. -/
structure PLCache (α : Type) where
  slot : Option (α × Nat)
  fetches : Nat
deriving DecidableEq

/-- Check phase of `getCachedProcessList`:
`if (cached && (now - cached.timestamp) < PROCESS_LIST_CACHE_MS) return
cached.data`, otherwise a fetch starts (counted here, where
`getProcessList()` is invoked). -/
def cacheCheck {α : Type} (ttl : Nat) (c : PLCache α) (now : Nat) :
    Option α × PLCache α :=
  match c.slot with
  | some (d, stamp) =>
      if (now : Int) - stamp < (ttl : Int) then (some d, c)
      else (none, { c with fetches := c.fetches + 1 })
  | none => (none, { c with fetches := c.fetches + 1 })

/-- Store phase: `processListCache.set(cacheKey, { data, timestamp: now })`
with the `now` captured before the fetch. -/
def cacheStore {α : Type} (c : PLCache α) (data : α) (checkTime : Nat) :
    PLCache α :=
  { c with slot := some (data, checkTime) }

/-- A full sequential `get()`: check, and on a miss immediately await the
fetch and store. Returns the data, the new cache and whether an upstream
fetch happened. -/
def cacheGetSeq {α : Type} (upstream : Nat → α) (ttl : Nat) (c : PLCache α)
    (now : Nat) : α × PLCache α × Bool :=
  match cacheCheck ttl c now with
  | (some d, c') => (d, c', false)
  | (none, c') => (upstream c.fetches, cacheStore c' (upstream c.fetches) now,
      true)

/-- The racing schedule of two concurrent `get()` callers that both reach
their cache check while the slot is empty or expired: A checks at `tA` (miss,
fetch begins), B checks at `tB` before A's fetch resolves (the slot is still
unset, so a second fetch begins), then both store. -/
def twoConcurrentGets {α : Type} (upstream : Nat → α) (ttl : Nat)
    (c0 : PLCache α) (tA tB : Nat) : PLCache α :=
  let cA := (cacheCheck ttl c0 tA).2
  let cB := (cacheCheck ttl cA tB).2
  let cA' := cacheStore cB (upstream c0.fetches) tA
  cacheStore cA' (upstream (c0.fetches + 1)) tB

/-- C3 counterexample: two `get()` calls in the same (5-second) TTL window,
arriving concurrently at times 0 and 1 while the slot is empty and
interleaving at the fetch's suspension point, invoke the upstream fetch
twice, not exactly once — `getCachedProcessList` has no in-flight fetch
deduplication. -/
theorem cache_concurrent_burst_two_fetches :
    (twoConcurrentGets (fun i => i) 5000
        ({ slot := none, fetches := 0 } : PLCache Nat) 0 1).fetches = 2
    ∧ (2 : Nat) ≠ 1 :=
  ⟨rfl, by decide⟩

/-- C3 amended: when the slot is empty or expired at `t0`, a `get()` at `t0`
performs exactly one upstream fetch and stores its result stamped `t0`; any
further *sequential* `get()` (one whose check runs after that store) within
the TTL window returns the cached copy and leaves the cache untouched — so
any such burst performs exactly one fetch — and the first `get()` at or
after expiry performs exactly one new fetch. Concurrent callers that pass
their checks before the first store are *not* covered: they each trigger a
fetch (see the counterexample). -/
theorem cache_single_fetch_sequential {α : Type} (upstream : Nat → α)
    (ttl : Nat) (c0 : PLCache α) (t0 : Nat)
    (hmiss : (cacheCheck ttl c0 t0).1 = none) :
    (cacheGetSeq upstream ttl c0 t0).2.2 = true
    ∧ (cacheGetSeq upstream ttl c0 t0).1 = upstream c0.fetches
    ∧ (cacheGetSeq upstream ttl c0 t0).2.1.fetches = c0.fetches + 1
    ∧ (∀ t, t0 ≤ t → t - t0 < ttl →
        cacheGetSeq upstream ttl (cacheGetSeq upstream ttl c0 t0).2.1 t
          = (upstream c0.fetches, (cacheGetSeq upstream ttl c0 t0).2.1,
             false))
    ∧ (∀ times : List Nat, (∀ t ∈ times, t0 ≤ t ∧ t - t0 < ttl) →
        times.foldl (fun c t => (cacheGetSeq upstream ttl c t).2.1)
            (cacheGetSeq upstream ttl c0 t0).2.1
          = (cacheGetSeq upstream ttl c0 t0).2.1)
    ∧ (∀ t', t0 ≤ t' → ttl ≤ t' - t0 →
        (cacheGetSeq upstream ttl (cacheGetSeq upstream ttl c0 t0).2.1
            t').2.2 = true
        ∧ (cacheGetSeq upstream ttl (cacheGetSeq upstream ttl c0 t0).2.1
            t').2.1.fetches = c0.fetches + 2) := by
  have h1 : cacheGetSeq upstream ttl c0 t0
      = (upstream c0.fetches,
         { slot := some (upstream c0.fetches, t0),
           fetches := c0.fetches + 1 }, true) := by
    rcases hslot : c0.slot with _ | ⟨d, stamp⟩
    · simp [cacheGetSeq, cacheCheck, hslot, cacheStore]
    · by_cases hhit : (t0 : Int) - stamp < (ttl : Int)
      · exfalso
        simp [cacheCheck, hslot, hhit] at hmiss
      · simp [cacheGetSeq, cacheCheck, hslot, hhit, cacheStore]
  have hwin : ∀ t, t0 ≤ t → t - t0 < ttl →
      cacheGetSeq upstream ttl (cacheGetSeq upstream ttl c0 t0).2.1 t
        = (upstream c0.fetches, (cacheGetSeq upstream ttl c0 t0).2.1,
           false) := by
    intro t hle hlt
    rw [h1]
    have hhit : (t : Int) - t0 < (ttl : Int) := by omega
    simp [cacheGetSeq, cacheCheck, hhit]
  refine ⟨by rw [h1], by rw [h1], by rw [h1], hwin, ?_, ?_⟩
  · intro times htimes
    induction times with
    | nil => rfl
    | cons hd tl ih =>
      have hhd := htimes hd (List.mem_cons_self hd tl)
      have hstep := hwin hd hhd.1 hhd.2
      simp only [List.foldl_cons, hstep]
      exact ih (fun t ht => htimes t (List.mem_cons_of_mem hd ht))
  · intro t' hle hexp
    rw [h1]
    have hnohit : ¬ ((t' : Int) - t0 < (ttl : Int)) := by omega
    constructor
    · simp [cacheGetSeq, cacheCheck, hnohit]
    · simp [cacheGetSeq, cacheCheck, hnohit, cacheStore]

theorem cache_single_fetch_sequential_witness :
    (cacheGetSeq (fun i => i) 5000
        ({ slot := none, fetches := 0 } : PLCache Nat) 0).2.1.fetches = 1
    ∧ cacheGetSeq (fun i => i) 5000
        (cacheGetSeq (fun i => i) 5000
          ({ slot := none, fetches := 0 } : PLCache Nat) 0).2.1 100
      = (0, (cacheGetSeq (fun i => i) 5000
          ({ slot := none, fetches := 0 } : PLCache Nat) 0).2.1, false)
    ∧ (cacheGetSeq (fun i => i) 5000
        (cacheGetSeq (fun i => i) 5000
          ({ slot := none, fetches := 0 } : PLCache Nat) 0).2.1
        5000).2.1.fetches = 2 := by
  have h := cache_single_fetch_sequential (fun i => i) 5000
    ({ slot := none, fetches := 0 } : PLCache Nat) 0 rfl
  exact ⟨h.2.2.1, h.2.2.2.1 100 (by decide) (by decide),
    (h.2.2.2.2.2 5000 (by decide) (by decide)).2⟩

/-! ## The `handleError` pipeline stage ordering (`monitor.ts`) -/

/-- `ProcessInfo` from `types.ts`, as produced by `getProcessList`. -/
structure ProcessInfo where
  id : Nat
  name : String
  pm_cwd : String
  status : String
  memory : Nat
  cpu : Nat
  uptime : Nat
deriving DecidableEq

/-- The fields of a pm2 bus log event that `handleError` reads:
`data.process?.pm_id` and `data.data`. -/
structure PM2LogData where
  pid : Option Nat
  data : Option String
deriving DecidableEq

/-- The monitor configuration values used by `handleError`. -/
structure MonitorConfig where
  debounceMs : Nat
  processListCacheMs : Nat

/-- Defaults from `config.ts`: 5-minute debounce, 5-second list cache. -/
def monitorDefaults : MonitorConfig :=
  { debounceMs := 300000, processListCacheMs := 5000 }

/-- The monitor state read and written by `handleError`. -/
structure MonitorState where
  processListCache : PLCache (List ProcessInfo)
  dedup : DedupState
deriving DecidableEq

/-- Observable events of one `handleError` invocation, in program order. -/
inductive MEvent where
  | cacheLookup
  | upstreamFetch
  | dropNoPid
  | dropEmptyMessage
  | dropUnknownProcess
  | debounceSuppressed
  | raceSuppressed
  | admittedForAlert
deriving DecidableEq, BEq

/-- JS `String.prototype.trim`: strip leading and trailing whitespace. -/
def jsTrim (s : String) : String :=
  String.mk
    (((s.data.dropWhile Char.isWhitespace).reverse.dropWhile
        Char.isWhitespace).reverse)

/-- `ProcessMonitor.handleError` up to and including the admission decision,
with an event trace: guard on `processId === undefined` and on an
empty/undefined trimmed message, then `await this.getCachedProcessList()`
(the directory-cache lookup — this happens before any dedup table is
consulted, because the fingerprint needs the process name), then
`processList.find(p => p.id === processId)`, then the debounce and
single-flight checks of `admitError`. -/
def handleError (cfg : MonitorConfig) (pm2List : Nat → List ProcessInfo)
    (st : MonitorState) (data : PM2LogData) (now : Nat) :
    MonitorState × List MEvent :=
  match data.pid with
  | none => (st, [.dropNoPid])
  | some processId =>
    let errorMessage := jsTrim (data.data.getD "")
    if errorMessage = "" then (st, [.dropEmptyMessage])
    else
      let r := cacheGetSeq pm2List cfg.processListCacheMs
        st.processListCache now
      let ev1 := if r.2.2 then [MEvent.cacheLookup, MEvent.upstreamFetch]
        else [MEvent.cacheLookup]
      match r.1.find? (fun p => p.id == processId) with
      | none =>
          ({ st with processListCache := r.2.1 },
           ev1 ++ [.dropUnknownProcess])
      | some processInfo =>
          match admitError cfg.debounceMs st.dedup processId
            processInfo.name errorMessage now with
          | (.debounced, d) =>
              ({ processListCache := r.2.1, dedup := d },
               ev1 ++ [.debounceSuppressed])
          | (.raceDuplicate, d) =>
              ({ processListCache := r.2.1, dedup := d },
               ev1 ++ [.raceSuppressed])
          | (.admitted, d) =>
              ({ processListCache := r.2.1, dedup := d },
               ev1 ++ [.admittedForAlert])

/-- The process directory used by the C6 counterexample. -/
def pm2ListW : Nat → List ProcessInfo := fun _ =>
  [{ id := 1, name := "worker-1", pm_cwd := "/root/agents/worker-1",
     status := "online", memory := 0, cpu := 0, uptime := 0 }]

/-- A monitor state whose recently-seen table already holds the fingerprint
of "Error: disk full" from "worker-1" (seen at t=10). -/
def stW6 : MonitorState :=
  { processListCache := { slot := none, fetches := 0 },
    dedup := { errorHashes := [(hashError "Error: disk full" "worker-1", 10)],
               processingErrors := [] } }

set_option maxRecDepth 10000

/-- C6 counterexample: a duplicate signal arriving at t=20, inside the
debounce window, is suppressed as debounced — yet its `handleError` run
performed the directory-cache lookup (and even the upstream fetch) before
the dedup check, because the fingerprint needs the process name. The claim
that a suppressed signal never triggers a directory-cache lookup is false. -/
theorem suppressed_signal_still_hits_cache :
    (handleError monitorDefaults pm2ListW stW6
        { pid := some 1, data := some "Error: disk full" } 20).2
      = [MEvent.cacheLookup, MEvent.upstreamFetch, MEvent.debounceSuppressed]
    ∧ MEvent.cacheLookup
      ∈ (handleError monitorDefaults pm2ListW stW6
          { pid := some 1, data := some "Error: disk full" } 20).2 := by
  have h : (handleError monitorDefaults pm2ListW stW6
      { pid := some 1, data := some "Error: disk full" } 20).2
      = [MEvent.cacheLookup, MEvent.upstreamFetch,
         MEvent.debounceSuppressed] := by
    rfl
  refine ⟨h, ?_⟩
  rw [h]
  exact List.mem_cons_self _ _

/-- C6 amended: the directory-cache lookup precedes the dedup stage rather
than following admission. A signal with no process id, or with an
empty/undefined trimmed message, is dropped without touching the cache;
every other signal — including ones the dedup stage then suppresses —
performs exactly one directory-cache lookup, and that lookup is the first
thing it does (in particular it happens before the dedup tables are
consulted). -/
theorem handleError_cache_lookup_order (cfg : MonitorConfig)
    (pm2List : Nat → List ProcessInfo) (st : MonitorState)
    (data : PM2LogData) (now : Nat) :
    (data.pid = none →
      (handleError cfg pm2List st data now).2 = [MEvent.dropNoPid])
    ∧ (∀ pid, data.pid = some pid → jsTrim (data.data.getD "") = "" →
        (handleError cfg pm2List st data now).2 = [MEvent.dropEmptyMessage])
    ∧ (∀ pid, data.pid = some pid → jsTrim (data.data.getD "") ≠ "" →
        (handleError cfg pm2List st data now).2.head?
          = some MEvent.cacheLookup
        ∧ (handleError cfg pm2List st data now).2.count MEvent.cacheLookup
          = 1) := by
  refine ⟨?_, ?_, ?_⟩
  · intro hpid
    simp [handleError, hpid]
  · intro pid hpid hempty
    simp [handleError, hpid, hempty]
  · intro pid hpid hne
    simp only [handleError, hpid]
    rw [if_neg hne]
    by_cases hf : (cacheGetSeq pm2List cfg.processListCacheMs
        st.processListCache now).2.2
    · simp only [hf, if_pos]
      rcases hfind : (cacheGetSeq pm2List cfg.processListCacheMs
          st.processListCache now).1.find? (fun p => p.id == pid)
        with _ | pinfo
      · simp [hfind, List.count_cons, List.count_nil] <;> decide
      · rcases hadm : admitError cfg.debounceMs st.dedup pid pinfo.name
          (jsTrim (data.data.getD "")) now with ⟨res, d⟩
        cases res <;> simp [hfind, hadm, List.count_cons, List.count_nil] <;>
          decide
    · simp only [hf, if_neg, Bool.false_eq_true, ite_false]
      rcases hfind : (cacheGetSeq pm2List cfg.processListCacheMs
          st.processListCache now).1.find? (fun p => p.id == pid)
        with _ | pinfo
      · simp [hfind, List.count_cons, List.count_nil] <;> decide
      · rcases hadm : admitError cfg.debounceMs st.dedup pid pinfo.name
          (jsTrim (data.data.getD "")) now with ⟨res, d⟩
        cases res <;> simp [hfind, hadm, List.count_cons, List.count_nil] <;>
          decide

theorem handleError_cache_lookup_order_witness :
    ((handleError monitorDefaults pm2ListW stW6
        { pid := some 1, data := some "Error: disk full" } 20).2.head?
      = some MEvent.cacheLookup)
    ∧ ((handleError monitorDefaults pm2ListW stW6
        { pid := none, data := some "Error: x" } 20).2
      = [MEvent.dropNoPid]) := by
  have h1 := (handleError_cache_lookup_order monitorDefaults pm2ListW stW6
    { pid := some 1, data := some "Error: disk full" } 20).2.2 1 rfl
    (by decide)
  have h2 := (handleError_cache_lookup_order monitorDefaults pm2ListW stW6
    { pid := none, data := some "Error: x" } 20).1 rfl
  exact ⟨h1.1, h2⟩

/-! ## ErrorContext log-snapshot semantics (`monitor.ts`, context assembly)

JS arrays are heap objects mutated in place, and `handleError` builds the
`ErrorContext` with `const logContext = logBuffers.get(processId) || [];` —
the array object itself, not a copy. To make the aliasing observable, this
model gives the buffer store an explicit heap: `cells` maps array ids to
their current contents, `logBuffers` maps process ids to array ids, and an
`ErrorContext` holds the array id its `logContext` field refers to. -/

/-- The heap of log-line arrays plus the `logBuffers` map. -/
structure MonHeap where
  cells : Nat → List String
  nextCell : Nat
  logBuffers : Nat → Option Nat

/-- The heap at monitor start: no buffers allocated. -/
def emptyHeap : MonHeap :=
  { cells := fun _ => [], nextCell := 0, logBuffers := fun _ => none }

/-- The buffer-maintenance part of `handleLog` on the heap model:
`if (!logBuffers.has(processId)) logBuffers.set(processId, [])` allocates a
fresh array; then the stored array is mutated in place by
`buffer.push(logData)` / `buffer.shift()`. -/
def handleLogRef (cap : Nat) (h : MonHeap) (processId : Nat) (line : String) :
    MonHeap :=
  let h1 := match h.logBuffers processId with
    | some _ => h
    | none =>
      { cells := fun c => if c = h.nextCell then [] else h.cells c,
        nextCell := h.nextCell + 1,
        logBuffers := fun q =>
          if q = processId then some h.nextCell else h.logBuffers q }
  match h1.logBuffers processId with
  | some cid =>
      { h1 with cells := fun c =>
          if c = cid then pushShift cap (h1.cells cid) line else h1.cells c }
  | none => h1

/-- JS `s.startsWith(pattern)`. -/
def jsStartsWith (s pattern : String) : Bool :=
  listStartsWith s.data pattern.data

/-- `ProcessMonitor.extractStackTrace`: find the first buffered line
containing the error message; collect, from the following window of at most
20 lines, the lines that look like stack frames; fall back to the error
message itself. -/
def extractStackTrace (logContext : List String) (errorMessage : String) :
    String :=
  match logContext.findIdx? (fun line => jsIncludes line errorMessage) with
  | none => errorMessage
  | some errorIndex =>
    let window := (logContext.drop errorIndex).take 20
    let stackLines := window.filter (fun line =>
      jsIncludes line "at " || jsIncludes line "Error:"
        || jsStartsWith (jsTrim line) "at")
    if stackLines.isEmpty then errorMessage
    else String.intercalate "\n" stackLines

/-- `ErrorContext` in the heap model: `logCell` is the id of the array the
`logContext` field references. -/
structure ErrorContextRef where
  processId : Nat
  processName : String
  errorMessage : String
  stackTrace : String
  logCell : Nat
  repo : Option String
  branch : Option String
  timestamp : Nat
deriving DecidableEq

/-- The context-assembly block of `handleError`:
`const logContext = logBuffers.get(processId) || []` keeps the live array
reference (`|| []` allocates a fresh empty array only when no buffer
exists), `extractStackTrace` is computed once from the array's current
contents, and the `ErrorContext` is built with the reference. -/
def buildErrorContextRef (h : MonHeap) (processId : Nat)
    (processName errorMessage : String) (repo branch : Option String)
    (now : Nat) : ErrorContextRef × MonHeap :=
  match h.logBuffers processId with
  | some cid =>
      ({ processId := processId,
         processName := processName,
         errorMessage := errorMessage,
         stackTrace := extractStackTrace (h.cells cid) errorMessage,
         logCell := cid,
         repo := repo,
         branch := branch,
         timestamp := now }, h)
  | none =>
      ({ processId := processId,
         processName := processName,
         errorMessage := errorMessage,
         stackTrace := extractStackTrace [] errorMessage,
         logCell := h.nextCell,
         repo := repo,
         branch := branch,
         timestamp := now },
       { h with
          cells := fun c => if c = h.nextCell then [] else h.cells c,
          nextCell := h.nextCell + 1 })

/-- What the `logContext` field denotes when the context is read in heap
`h`: the current contents of the referenced array. -/
def readCtxLogs (h : MonHeap) (ctx : ErrorContextRef) : List String :=
  h.cells ctx.logCell

/-- The heap after process 1 logged "Error: disk full". -/
def heapW7 : MonHeap := handleLogRef 50 emptyHeap 1 "Error: disk full"

/-- The context built for that error, holding the live buffer reference. -/
def builtW7 : ErrorContextRef × MonHeap :=
  buildErrorContextRef heapW7 1 "worker-1" "Error: disk full" none none 5

/-- C7 counterexample: the `ErrorContext` built for process 1 sees
`["Error: disk full"]` at construction time, but after one more `append` to
that process's buffer its `logContext` reads
`["Error: disk full", "retrying"]` — the field aliases the live buffer, so
it does not stay unchanged as the claim (copy semantics) requires. -/
theorem error_context_logs_mutate_after_append :
    readCtxLogs builtW7.2 builtW7.1 = ["Error: disk full"]
    ∧ readCtxLogs (handleLogRef 50 builtW7.2 1 "retrying") builtW7.1
      = ["Error: disk full", "retrying"]
    ∧ readCtxLogs (handleLogRef 50 builtW7.2 1 "retrying") builtW7.1
      ≠ readCtxLogs builtW7.2 builtW7.1 := by
  refine ⟨rfl, rfl, ?_⟩
  decide

/-- C7 amended: the `logContext` of an `ErrorContext` built for a process
with an existing buffer is a live reference, not a copy: a subsequent
`append` to that process's buffer is visible through the already-constructed
context, whose view becomes exactly the buffer's new contents (`pushShift`
of the old view). The other fields are plain values fixed at construction —
in particular the `stackTrace` string is extracted once from the buffer
contents at build time. -/
theorem error_context_logContext_aliases_buffer (cap : Nat) (h : MonHeap)
    (pid : Nat) (name msg : String) (repo branch : Option String)
    (now : Nat) (line : String) (cid : Nat)
    (hbuf : h.logBuffers pid = some cid) :
    readCtxLogs
        (handleLogRef cap
          (buildErrorContextRef h pid name msg repo branch now).2 pid line)
        (buildErrorContextRef h pid name msg repo branch now).1
      = pushShift cap
          (readCtxLogs (buildErrorContextRef h pid name msg repo branch now).2
            (buildErrorContextRef h pid name msg repo branch now).1) line
    ∧ (buildErrorContextRef h pid name msg repo branch now).1.stackTrace
      = extractStackTrace (h.cells cid) msg := by
  constructor
  · simp only [buildErrorContextRef, hbuf]
    simp [handleLogRef, hbuf, readCtxLogs]
  · simp [buildErrorContextRef, hbuf]

theorem error_context_logContext_aliases_buffer_witness :
    heapW7.logBuffers 1 = some 0
    ∧ readCtxLogs (handleLogRef 50 builtW7.2 1 "retrying") builtW7.1
      = pushShift 50 (readCtxLogs builtW7.2 builtW7.1) "retrying" := by
  have h := error_context_logContext_aliases_buffer 50 heapW7 1 "worker-1"
    "Error: disk full" none none 5 "retrying" 0 rfl
  exact ⟨rfl, h.1⟩

end Watchtower
